import Mathlib

/- Verification of the Discord librarian bot's access-control gate
(src/config/env.ts), its allow-list loader, the user-visible denial copy
(src/util/messages.ts), and the button custom-id codec (the discord ui
helper module). JavaScript strings that may be `null`/`undefined` are
`Option String`; JS falsiness of such a value means "absent or empty".
Custom-id strings are handled as their character sequences (`List Char`),
matching the JS view of a string as a sequence of code units. -/

namespace Librarian

/-- JS truthiness of a string-or-nullish value: `null`, `undefined` and the
empty string are falsy; every other string is truthy. -/
def jsTruthy : Option String → Bool
  | none => false
  | some s => !(s == "")

/-- The validated allow-context map: the own properties of the parsed JSON
object, mapping a guildId to its array of channelIds (env.ts line 30). -/
abbrev AllowedContextMap := List (String × List String)

/-- The check `Object.prototype.hasOwnProperty.call(m, k)` on the map
(env.ts line 131): an own-property test, immune to the prototype chain. -/
def hasOwnProperty (m : AllowedContextMap) (k : String) : Bool :=
  m.any (fun kv => kv.1 == k)

/-- Result of the JS property read `m[k]` on a plain object whose own
properties are string arrays: the own array, an inherited member of
`Object.prototype`, or `undefined`. For an inherited member we record the
value of its `length` property (`none` when that property is itself
`undefined`); no inherited member has an `includes` method. -/
inductive JsProp where
  | jsUndefined : JsProp
  | arr : List String → JsProp
  | protoMember : Option Nat → JsProp
deriving DecidableEq, Repr

/-- The own property names of `Object.prototype` in ECMAScript, paired with
the `length` of the value read there: every member is a function with the
listed arity, except the `__proto__` accessor whose read result
(`Object.prototype` itself) has no `length` property. -/
def objectProtoMembers : List (String × Option Nat) :=
  [("constructor", some 1), ("hasOwnProperty", some 1), ("isPrototypeOf", some 1),
   ("propertyIsEnumerable", some 1), ("toLocaleString", some 0), ("toString", some 0),
   ("valueOf", some 0), ("__defineGetter__", some 2), ("__defineSetter__", some 2),
   ("__lookupGetter__", some 1), ("__lookupSetter__", some 1), ("__proto__", none)]

/-- The JS property read `m[k]` used at env.ts line 151: an own property if
one exists, otherwise a lookup through the `Object.prototype` chain. -/
def jsIndex (m : AllowedContextMap) (k : String) : JsProp :=
  match m.find? (fun kv => kv.1 == k) with
  | some kv => .arr kv.2
  | none =>
    match objectProtoMembers.find? (fun kv => kv.1 == k) with
    | some kv => .protoMember kv.2
    | none => .jsUndefined

/-- Outcome of a JS call that may throw: a returned value or a thrown
exception carrying its message. -/
inductive JsOutcome (α : Type) where
  | ok : α → JsOutcome α
  | thrown : String → JsOutcome α
deriving DecidableEq, Repr

/-- Embedding of `isGuildAllowed` (env.ts lines 128-133); the module-level
`allowedMap` and `config.nonverifiedServersAllowed` are passed explicitly. -/
def isGuildAllowed (guildId : Option String) (allowedMap : Option AllowedContextMap)
    (nonverifiedServersAllowed : Bool) : Bool :=
  if !(jsTruthy guildId) then false
  else
    match allowedMap with
    | none => true
    | some m =>
      if hasOwnProperty m (guildId.getD "") then true
      else nonverifiedServersAllowed

/-- Embedding of `isChannelAllowed` (env.ts lines 146-158). The read
`allowedMap[guildId]` goes through the prototype chain (`jsIndex`); on an
inherited value, `channels === undefined` is false, `channels.length === 0`
compares the member's `length`, and the call `channels.includes(channelId)`
throws a `TypeError` because no inherited member has that method. -/
def isChannelAllowed (guildId channelId : Option String)
    (allowedMap : Option AllowedContextMap) (nonverifiedServersAllowed : Bool) :
    JsOutcome Bool :=
  if !(jsTruthy guildId) || !(jsTruthy channelId) then .ok false
  else
    match allowedMap with
    | none => .ok true
    | some m =>
      if !(isGuildAllowed guildId (some m) nonverifiedServersAllowed) then .ok false
      else
        match jsIndex m (guildId.getD "") with
        | .jsUndefined => .ok nonverifiedServersAllowed
        | .arr channels =>
          if channels.length = 0 then .ok true
          else .ok (channels.contains (channelId.getD ""))
        | .protoMember len =>
          if len = some 0 then .ok true
          else .thrown "TypeError: channels.includes is not a function"

/-- JSON values as produced by a successful `JSON.parse`. Numbers are not
inspected by the loader, so an integral carrier suffices. -/
inductive Json where
  | null : Json
  | bool : Bool → Json
  | num : Int → Json
  | str : String → Json
  | arr : List Json → Json
  | obj : List (String × Json) → Json

/-- Validation of one JSON array as `z.array(z.string())`: succeeds exactly
when every element is a string. -/
def asStringList : List Json → Option (List String)
  | [] => some []
  | Json.str s :: rest => (asStringList rest).map (fun l => s :: l)
  | _ => none

/-- Validation of the object's fields: every value must be an array of
strings. -/
def validateFields : List (String × Json) → Option AllowedContextMap
  | [] => some []
  | (k, v) :: rest =>
    match v with
    | Json.arr xs =>
      match asStringList xs, validateFields rest with
      | some l, some m => some ((k, l) :: m)
      | _, _ => none
    | _ => none

/-- Embedding of `z.record(z.array(z.string())).parse` (env.ts line 51):
succeeds exactly when the JSON value is an object whose every value is an
array of strings; `none` models the thrown (and caught) validation error. -/
def validateAllowedContext : Json → Option AllowedContextMap
  | Json.obj fields => validateFields fields
  | _ => none

/-- Result record of `loadAllowedContext` (env.ts line 38). -/
structure LoadResult where
  map : Option AllowedContextMap
  loadedPath : Option String
deriving DecidableEq, Repr

/-- Abstract filesystem as the loader sees it: whether a path exists, and
what reading it and running `JSON.parse` yields (`none` when the read or
the parse throws). -/
structure Fs where
  existsSync : String → Bool
  readParse : String → Option Json

/-- Embedding of `loadAllowedContext` (env.ts lines 38-65) over the
candidate path list: a non-existing candidate is skipped; for the first
existing one, a read, parse, or validation failure is caught and makes the
function return `map := none` at once (the catch returns, it does not
continue the loop); when no candidate exists the result is also
`map := none`. -/
def loadAllowedContext (fs : Fs) : List String → LoadResult
  | [] => ⟨none, none⟩
  | p :: rest =>
    if fs.existsSync p then
      match fs.readParse p with
      | none => ⟨none, none⟩
      | some j =>
        match validateAllowedContext j with
        | none => ⟨none, none⟩
        | some m => ⟨some m, some p⟩
    else loadAllowedContext fs rest

/-- Embedding of `DM_BLOCKED` (messages.ts line 7). -/
def DM_BLOCKED : String := "This bot is not available in DMs."

/-- Embedding of `SERVER_BLOCKED` (messages.ts lines 9-13); the optional
`contact` parameter is tested for JS truthiness. -/
def SERVER_BLOCKED (contact : Option String) : String :=
  if jsTruthy contact then
    "This bot is not available in this server. Please contact " ++ contact.getD "" ++ "."
  else
    "This bot is not available in this server."

/-- Embedding of `CHANNEL_BLOCKED` (messages.ts line 15). -/
def CHANNEL_BLOCKED : String := "This bot is not available in this channel."

/-- Embedding of `contactUserMention` (env.ts lines 163-165), with
`env.DISCORD_CONTACT_USER_ID` passed explicitly. -/
def contactUserMention (contactUserId : Option String) : Option String :=
  if jsTruthy contactUserId then some ("<@" ++ contactUserId.getD "" ++ ">") else none

/-- JS `String.prototype.split` with a one-character separator, over the
character sequence: faithful to `"".split(c) = [""]` and to trailing empty
pieces such as `"a:".split(c) = ["a", ""]`. -/
def jsSplit (sep : Char) : List Char → List (List Char)
  | [] => [[]]
  | c :: rest =>
    match jsSplit sep rest with
    | [] => [[]]
    | h :: t => if c = sep then [] :: h :: t else (c :: h) :: t

/-- Inverse of `jsSplit`: interleave the separator back between the
pieces. -/
def jsJoin (sep : Char) : List (List Char) → List Char
  | [] => []
  | [p] => p
  | p :: q :: ps => p ++ sep :: jsJoin sep (q :: ps)

/-- The two button actions of the `'UPLOAD' | 'ASK'` union (ui helper). -/
inductive UiAction where
  | UPLOAD : UiAction
  | ASK : UiAction
deriving DecidableEq, Repr

/-- Character sequence of an action name. -/
def UiAction.chars : UiAction → List Char
  | .UPLOAD => "UPLOAD".data
  | .ASK => "ASK".data

/-- The two value keys of the `'filename' | 'bookId'` union (ui helper). -/
inductive ValueKey where
  | filename : ValueKey
  | bookId : ValueKey
deriving DecidableEq, Repr

/-- Character sequence of a value key. -/
def ValueKey.chars : ValueKey → List Char
  | .filename => "filename".data
  | .bookId => "bookId".data

/-- `CUSTOM_ID.UPLOAD` (ui helper line 57). -/
def CUSTOM_ID_UPLOAD : List Char := "LIB:UPLOAD".data

/-- `CUSTOM_ID.ASK` (ui helper line 58). -/
def CUSTOM_ID_ASK : List Char := "LIB:ASK".data

/-- The `CustomIdParsed` discriminated union (ui helper lines 62-66): an
action paired with either a `bookId` payload (`id`) or a `filename`
payload. -/
inductive CustomIdParsed where
  | uploadId : List Char → CustomIdParsed
  | uploadFilename : List Char → CustomIdParsed
  | askId : List Char → CustomIdParsed
  | askFilename : List Char → CustomIdParsed
deriving DecidableEq, Repr

/-- The characters removed by the regex class `[\s]` in JS: the whitespace
and line-terminator code points. -/
def isJsWhitespace (c : Char) : Bool :=
  let n := c.toNat
  n == 0x20 || n == 0x09 || n == 0x0a || n == 0x0b || n == 0x0c || n == 0x0d ||
  n == 0xa0 || n == 0x1680 || (0x2000 ≤ n && n ≤ 0x200a) || n == 0x2028 ||
  n == 0x2029 || n == 0x202f || n == 0x205f || n == 0x3000 || n == 0xfeff

/-- Decimal rendering of a JS integral number as template interpolation
produces it. -/
def jsNumChars : Int → List Char
  | Int.ofNat n => Nat.toDigits 10 n
  | Int.negSucc n => '-' :: Nat.toDigits 10 (n + 1)

/-- Embedding of `encodeCustomId` (ui helper lines 99-116): for the
`filename` key the value is stripped of whitespace and cut to 64
characters; the `;r=<row>;b=<button>` suffix is appended only when both
indices are given. -/
def encodeCustomId (action : UiAction) (value : List Char)
    (rowIndex buttonIndex : Option Int) (valueKey : ValueKey) : List Char :=
  let safe := value
  let stripped := safe.filter (fun c => !(isJsWhitespace c))
  let trimmed :=
    match valueKey with
    | .filename => if stripped.length > 64 then stripped.take 64 else stripped
    | .bookId => safe
  let base :=
    (match action with | .UPLOAD => CUSTOM_ID_UPLOAD | .ASK => CUSTOM_ID_ASK)
      ++ ':' :: valueKey.chars ++ '=' :: trimmed
  match rowIndex, buttonIndex with
  | some r, some b =>
    base ++ ';' :: 'r' :: '=' :: jsNumChars r ++ ';' :: 'b' :: '=' :: jsNumChars b
  | _, _ => base

/-- Embedding of `parseCustomId` (ui helper lines 118-154): split on `:`
into exactly three parts led by `LIB`; keep only what precedes the first
`;` of the third part; that piece must split on `=` into a non-empty key
and a non-empty value; the key selects the payload field and the action
tag selects the variant. -/
def parseCustomId (customId : List Char) : Option CustomIdParsed :=
  match jsSplit ':' customId with
  | [p0, p1, p2] =>
    if p0 ≠ "LIB".data then none
    else
      let action := p1
      let firstKV := (jsSplit ';' p2).headD []
      if firstKV = [] then none
      else
        match jsSplit '=' firstKV with
        | [k, v] =>
          if k = [] ∨ v = [] then none
          else if k = "bookId".data then
            if action = "UPLOAD".data then some (.uploadId v)
            else if action = "ASK".data then some (.askId v)
            else none
          else if k = "filename".data then
            if action = "UPLOAD".data then some (.uploadFilename v)
            else if action = "ASK".data then some (.askFilename v)
            else none
          else none
        | _ => none
  | _ => none

/-- Modelled from the spec: recognizer of the structured-identifier grammar
`LIB:<ACTION>:<key>=<value>[;r=<int>;b=<int>]` with `ACTION` one of
`UPLOAD`/`ASK` and `key` one of `filename`/`bookId`; `<value>` is a
non-empty run free of the structural separators and each `<int>` a
non-empty digit run. -/
def specGrammarAccepts (s : List Char) : Bool :=
  match jsSplit ':' s with
  | [lib, action, third] =>
    lib = "LIB".data && (action = "UPLOAD".data || action = "ASK".data) &&
    (match jsSplit ';' third with
     | [kv] => specGrammarKV kv
     | [kv, rPart, bPart] =>
       specGrammarKV kv && specGrammarIdx 'r' rPart && specGrammarIdx 'b' bPart
     | _ => false)
  | _ => false
where
  /-- The `<key>=<value>` piece of the grammar. -/
  specGrammarKV (kv : List Char) : Bool :=
    match jsSplit '=' kv with
    | [k, v] => (k = "filename".data || k = "bookId".data) && v ≠ []
    | _ => false
  /-- One `r=<int>` or `b=<int>` piece of the grammar. -/
  specGrammarIdx (tag : Char) (p : List Char) : Bool :=
    match jsSplit '=' p with
    | [t, digits] => t = [tag] && digits ≠ [] && digits.all (fun c => c.isDigit)
    | _ => false

/-- The exact language `parseCustomId` accepts: the spec grammar with the
uniqueness suffix generalized to an arbitrary colon-free tail after the
first `;`, stripped without validation. -/
def parseAccepted (s : List Char) : Prop :=
  ∃ (action : UiAction) (key : ValueKey) (value suffix : List Char),
    value ≠ [] ∧ (∀ c ∈ value, c ≠ ':' ∧ c ≠ ';' ∧ c ≠ '=') ∧
    (suffix = [] ∨ ∃ tail, suffix = ';' :: tail) ∧ (∀ c ∈ suffix, c ≠ ':') ∧
    s = "LIB".data ++ ':' :: action.chars ++ ':' :: key.chars ++ '=' :: value ++ suffix

/-- Pairing of an action and a value key with the parsed variant that
`parseCustomId` yields for them. -/
def parsedOf : UiAction → ValueKey → List Char → CustomIdParsed
  | .UPLOAD, .bookId, v => .uploadId v
  | .UPLOAD, .filename, v => .uploadFilename v
  | .ASK, .bookId, v => .askId v
  | .ASK, .filename, v => .askFilename v

/-- A split never produces the empty list of pieces. -/
theorem jsSplit_ne_nil (sep : Char) (l : List Char) : jsSplit sep l ≠ [] := by
  cases l with
  | nil => simp [jsSplit]
  | cons c rest =>
    cases h : jsSplit sep rest with
    | nil => simp [jsSplit, h]
    | cons hd tl =>
      simp only [jsSplit, h]
      split <;> simp

/-- Splitting a separator-free sequence yields that sequence alone. -/
theorem jsSplit_eq_single (sep : Char) (a : List Char) (ha : sep ∉ a) :
    jsSplit sep a = [a] := by
  induction a with
  | nil => rfl
  | cons c rest ih =>
    have hc : c ≠ sep := fun hcc => ha (hcc ▸ List.mem_cons_self c rest)
    have hrest : sep ∉ rest := fun hm => ha (List.mem_cons_of_mem c hm)
    simp [jsSplit, ih hrest, hc]

/-- Splitting peels a separator-free piece off the front. -/
theorem jsSplit_append (sep : Char) (a b : List Char) (ha : sep ∉ a) :
    jsSplit sep (a ++ sep :: b) = a :: jsSplit sep b := by
  induction a with
  | nil =>
    cases h : jsSplit sep b with
    | nil => exact absurd h (jsSplit_ne_nil sep b)
    | cons hd tl => simp [jsSplit, h]
  | cons c rest ih =>
    have hc : c ≠ sep := fun hcc => ha (hcc ▸ List.mem_cons_self c rest)
    have hrest : sep ∉ rest := fun hm => ha (List.mem_cons_of_mem c hm)
    simp only [List.cons_append, jsSplit, List.append_eq]
    rw [ih hrest]
    simp [hc]

/-- Joining the pieces of a split restores the original sequence. -/
theorem jsJoin_jsSplit (sep : Char) (l : List Char) :
    jsJoin sep (jsSplit sep l) = l := by
  induction l with
  | nil => rfl
  | cons c rest ih =>
    cases h : jsSplit sep rest with
    | nil => exact absurd h (jsSplit_ne_nil sep rest)
    | cons hd tl =>
      rw [h] at ih
      by_cases hc : c = sep
      · subst hc
        simpa [jsSplit, h, jsJoin] using ih
      · cases tl with
        | nil => simpa [jsSplit, h, hc, jsJoin] using ih
        | cons t0 ts => simpa [jsSplit, h, hc, jsJoin] using ih

/-- No piece of a split contains the separator. -/
theorem not_sep_of_mem_jsSplit (sep : Char) (l : List Char) (p : List Char)
    (hp : p ∈ jsSplit sep l) : sep ∉ p := by
  induction l generalizing p with
  | nil =>
    simp [jsSplit] at hp
    subst hp
    simp
  | cons c rest ih =>
    cases h : jsSplit sep rest with
    | nil => exact absurd h (jsSplit_ne_nil sep rest)
    | cons hd tl =>
      by_cases hc : c = sep
      · rw [show jsSplit sep (c :: rest) = [] :: hd :: tl by simp [jsSplit, h, hc]] at hp
        rcases List.mem_cons.mp hp with rfl | hp'
        · simp
        · exact ih p (h ▸ hp')
      · rw [show jsSplit sep (c :: rest) = (c :: hd) :: tl by simp [jsSplit, h, hc]] at hp
        rcases List.mem_cons.mp hp with rfl | hp'
        · intro hmem
          rcases List.mem_cons.mp hmem with hsc | hmem'
          · exact hc hsc.symm
          · exact ih hd (h ▸ List.mem_cons_self hd tl) hmem'
        · exact ih p (h ▸ List.mem_cons_of_mem hd hp')

/-- Every character `Nat.digitChar` yields for a base-10 digit is distinct
from the three structural separators of the custom-id grammar. -/
theorem digitChar_not_sep (m : Nat) (hm : m < 10) :
    Nat.digitChar m ≠ ':' ∧ Nat.digitChar m ≠ ';' ∧ Nat.digitChar m ≠ '=' := by
  interval_cases m <;> decide

/-- Characters accumulated by `Nat.toDigitsCore` stay clear of the
separators, provided the accumulator does. -/
theorem toDigitsCore_not_sep (fuel : Nat) :
    ∀ (n : Nat) (acc : List Char),
      (∀ c ∈ acc, c ≠ ':' ∧ c ≠ ';' ∧ c ≠ '=') →
      ∀ c ∈ Nat.toDigitsCore 10 fuel n acc, c ≠ ':' ∧ c ≠ ';' ∧ c ≠ '=' := by
  induction fuel with
  | zero =>
    intro n acc hacc c hc
    exact hacc c (by simpa [Nat.toDigitsCore] using hc)
  | succ fuel ih =>
    intro n acc hacc c hc
    simp only [Nat.toDigitsCore] at hc
    have hacc' : ∀ d ∈ Nat.digitChar (n % 10) :: acc, d ≠ ':' ∧ d ≠ ';' ∧ d ≠ '=' := by
      intro d hd
      rcases List.mem_cons.mp hd with rfl | hmem
      · exact digitChar_not_sep _ (Nat.mod_lt _ (by omega))
      · exact hacc d hmem
    by_cases hz : n / 10 = 0
    · rw [if_pos hz] at hc
      exact hacc' c hc
    · rw [if_neg hz] at hc
      exact ih (n / 10) (Nat.digitChar (n % 10) :: acc) hacc' c hc

/-- The decimal rendering of a JS integral number contains none of the
separators. -/
theorem jsNumChars_not_sep (r : Int) :
    ∀ c ∈ jsNumChars r, c ≠ ':' ∧ c ≠ ';' ∧ c ≠ '=' := by
  cases r with
  | ofNat n =>
    intro c hc
    exact toDigitsCore_not_sep (n + 1) n [] (by simp) c hc
  | negSucc n =>
    intro c hc
    rcases List.mem_cons.mp hc with rfl | hmem
    · exact ⟨by decide, by decide, by decide⟩
    · exact toDigitsCore_not_sep (n + 1 + 1) (n + 1) [] (by simp) c hmem

/-- Soundness of the codec shape: `parseCustomId` accepts every identifier
of the shape `LIB:<action>:<key>=<value><suffix>` with a separator-free
non-empty value and a stripped-away tail, and yields the matching
variant. -/
theorem parseCustomId_shape (action : UiAction) (key : ValueKey) (value suffix : List Char)
    (hv : value ≠ []) (hvc : ∀ c ∈ value, c ≠ ':' ∧ c ≠ ';' ∧ c ≠ '=')
    (hs : suffix = [] ∨ ∃ tail, suffix = ';' :: tail)
    (hsc : ∀ c ∈ suffix, c ≠ ':') :
    parseCustomId
        ("LIB".data ++ ':' :: action.chars ++ ':' :: key.chars ++ '=' :: value ++ suffix)
      = some (parsedOf action key value) := by
  have hLIB : (':' : Char) ∉ "LIB".data := by decide
  have hact : (':' : Char) ∉ action.chars := by cases action <;> decide
  have hkeyc : ∀ c ∈ key.chars, c ≠ ':' ∧ c ≠ ';' ∧ c ≠ '=' := by
    cases key <;> decide
  have hkeyne : key.chars ≠ [] := by cases key <;> decide
  have hcolon_third : (':' : Char) ∉ (key.chars ++ '=' :: value) ++ suffix := by
    intro hmem
    rcases List.mem_append.mp hmem with hmem | hmem
    · rcases List.mem_append.mp hmem with hmem | hmem
      · exact (hkeyc ':' hmem).1 rfl
      · rcases List.mem_cons.mp hmem with heq | hmem
        · exact absurd heq (by decide)
        · exact (hvc ':' hmem).1 rfl
    · exact hsc ':' hmem rfl
  have harg : "LIB".data ++ ':' :: action.chars ++ ':' :: key.chars ++ '=' :: value ++ suffix
      = "LIB".data ++ ':' :: (action.chars ++ ':' :: ((key.chars ++ '=' :: value) ++ suffix)) := by
    simp
  have hsplit1 : jsSplit ':'
        ("LIB".data ++ ':' :: action.chars ++ ':' :: key.chars ++ '=' :: value ++ suffix)
      = ["LIB".data, action.chars, (key.chars ++ '=' :: value) ++ suffix] := by
    rw [harg, jsSplit_append ':' _ _ hLIB, jsSplit_append ':' _ _ hact,
      jsSplit_eq_single ':' _ hcolon_third]
  have hsemi_kv : (';' : Char) ∉ key.chars ++ '=' :: value := by
    intro hmem
    rcases List.mem_append.mp hmem with hmem | hmem
    · exact (hkeyc ';' hmem).2.1 rfl
    · rcases List.mem_cons.mp hmem with heq | hmem
      · exact absurd heq (by decide)
      · exact (hvc ';' hmem).2.1 rfl
  have hsplit2 : (jsSplit ';' ((key.chars ++ '=' :: value) ++ suffix)).headD []
      = key.chars ++ '=' :: value := by
    rcases hs with rfl | ⟨tail, rfl⟩
    · rw [List.append_nil, jsSplit_eq_single ';' _ hsemi_kv]
      rfl
    · rw [jsSplit_append ';' _ tail hsemi_kv]
      rfl
  have heq_key : ('=' : Char) ∉ key.chars := fun hm => (hkeyc '=' hm).2.2 rfl
  have heq_val : ('=' : Char) ∉ value := fun hm => (hvc '=' hm).2.2 rfl
  have hsplit3 : jsSplit '=' (key.chars ++ '=' :: value) = [key.chars, value] := by
    rw [jsSplit_append '=' _ _ heq_key, jsSplit_eq_single '=' value heq_val]
  have hkvne : key.chars ++ '=' :: value ≠ [] := by
    simp
  simp only [parseCustomId, hsplit1, hsplit2, hsplit3]
  cases action <;> cases key <;>
    simp [UiAction.chars, ValueKey.chars, parsedOf, hkvne, hkeyne, hv]

/-- Completeness helper: reassemble an accepted custom id from the pieces
the parser extracted. -/
theorem parseAccepted_assemble (s : List Char) (p1 p2 k v : List Char)
    (action : UiAction) (key : ValueKey)
    (hsp : jsSplit ':' s = ["LIB".data, p1, p2])
    (hkvE : jsSplit '=' ((jsSplit ';' p2).headD []) = [k, v])
    (hvne : v ≠ [])
    (hkc : k = key.chars) (hac : p1 = action.chars) :
    parseAccepted s := by
  subst hkc
  subst hac
  have hs_eq := jsJoin_jsSplit ':' s
  rw [hsp] at hs_eq
  have hcolon_p2 : (':' : Char) ∉ p2 :=
    not_sep_of_mem_jsSplit ':' s p2 (by rw [hsp]; simp)
  cases hw : jsSplit ';' p2 with
  | nil => exact absurd hw (jsSplit_ne_nil ';' p2)
  | cons f t =>
    rw [hw] at hkvE
    simp only [List.headD_cons] at hkvE
    have hp2_eq := jsJoin_jsSplit ';' p2
    rw [hw] at hp2_eq
    have hsemi_f : (';' : Char) ∉ f :=
      not_sep_of_mem_jsSplit ';' p2 f (by rw [hw]; simp)
    have hf_eq := jsJoin_jsSplit '=' f
    rw [hkvE] at hf_eq
    have heq_k : ('=' : Char) ∉ key.chars :=
      not_sep_of_mem_jsSplit '=' f key.chars (by rw [hkvE]; simp)
    have heq_v : ('=' : Char) ∉ v :=
      not_sep_of_mem_jsSplit '=' f v (by rw [hkvE]; simp)
    have hf_shape : key.chars ++ '=' :: v = f := by
      simpa [jsJoin] using hf_eq
    -- the stripped tail after the first semicolon
    have main : ∃ suffix : List Char,
        (suffix = [] ∨ ∃ tail, suffix = ';' :: tail) ∧ p2 = f ++ suffix := by
      cases t with
      | nil => exact ⟨[], Or.inl rfl, by simpa [jsJoin] using hp2_eq.symm⟩
      | cons t0 ts =>
        refine ⟨';' :: jsJoin ';' (t0 :: ts), Or.inr ⟨jsJoin ';' (t0 :: ts), rfl⟩, ?_⟩
        simpa [jsJoin] using hp2_eq.symm
    rcases main with ⟨suffix, hsuf, hp2s⟩
    refine ⟨action, key, v, suffix, hvne, ?_, hsuf, ?_, ?_⟩
    · intro c hc
      have hcf : c ∈ f := by
        rw [← hf_shape]
        exact List.mem_append_right _ (List.mem_cons_of_mem _ hc)
      have hcp2 : c ∈ p2 := by
        rw [hp2s]
        exact List.mem_append_left _ hcf
      exact ⟨fun hcc => hcolon_p2 (hcc ▸ hcp2),
        fun hcc => hsemi_f (hcc ▸ hcf),
        fun hcc => heq_v (hcc ▸ hc)⟩
    · intro c hc
      have hcp2 : c ∈ p2 := by
        rw [hp2s]
        exact List.mem_append_right _ hc
      exact fun hcc => hcolon_p2 (hcc ▸ hcp2)
    · rw [← hs_eq, hp2s, ← hf_shape]
      simp [jsJoin]

/-- Completeness of the accepted-language description: every custom id the
parser accepts has the generalized shape. -/
theorem parseAccepted_of_parse_some (s : List Char) (out : CustomIdParsed)
    (h : parseCustomId s = some out) : parseAccepted s := by
  unfold parseCustomId at h
  split at h
  case h_2 => exact absurd h (by simp)
  case h_1 p0 p1 p2 hsp =>
    split at h
    case isTrue => exact absurd h (by simp)
    case isFalse hp0 =>
      rw [not_not] at hp0
      subst hp0
      simp only [] at h
      split at h
      case isTrue => exact absurd h (by simp)
      case isFalse hkv =>
        split at h
        case h_2 => exact absurd h (by simp)
        case h_1 k v hkvE =>
          split at h
          case isTrue => exact absurd h (by simp)
          case isFalse hkvne =>
            have hvne : v ≠ [] := fun hv => hkvne (Or.inr hv)
            split at h
            case isTrue hk =>
              -- key is bookId
              split at h
              case isTrue hac =>
                exact parseAccepted_assemble s p1 p2 k v .UPLOAD .bookId hsp hkvE hvne hk hac
              case isFalse =>
                split at h
                case isTrue hac =>
                  exact parseAccepted_assemble s p1 p2 k v .ASK .bookId hsp hkvE hvne hk hac
                case isFalse => exact absurd h (by simp)
            case isFalse =>
              split at h
              case isTrue hk =>
                -- key is filename
                split at h
                case isTrue hac =>
                  exact parseAccepted_assemble s p1 p2 k v .UPLOAD .filename hsp hkvE hvne hk hac
                case isFalse =>
                  split at h
                  case isTrue hac =>
                    exact parseAccepted_assemble s p1 p2 k v .ASK .filename hsp hkvE hvne hk hac
                  case isFalse => exact absurd h (by simp)
              case isFalse => exact absurd h (by simp)

/-- C1: `isGuildAllowed` returns false for an absent or empty guildId (with
or without a map); returns true when the map is absent and the guildId is
non-empty; returns true whenever the guildId is a key of the map, whatever
the default policy and the key's channel list; and returns the default
policy when the guildId is not a key — for every guildId, map and policy. -/
theorem C1_isGuildAllowed_cases (s : String) (m : AllowedContextMap) (d : Bool) :
    isGuildAllowed none (some m) d = false ∧
    isGuildAllowed none none d = false ∧
    isGuildAllowed (some "") (some m) d = false ∧
    isGuildAllowed (some "") none d = false ∧
    (s ≠ "" → isGuildAllowed (some s) none d = true) ∧
    (s ≠ "" → hasOwnProperty m s = true → isGuildAllowed (some s) (some m) d = true) ∧
    (s ≠ "" → hasOwnProperty m s = false → isGuildAllowed (some s) (some m) d = d) := by
  refine ⟨rfl, rfl, rfl, rfl, ?_, ?_, ?_⟩
  · intro hs
    simp [isGuildAllowed, jsTruthy, hs]
  · intro hs hk
    simp [isGuildAllowed, jsTruthy, hs, hk]
  · intro hs hk
    simp [isGuildAllowed, jsTruthy, hs, hk]

/-- Witness for C1 at a concrete listed guild. -/
theorem C1_isGuildAllowed_cases_witness :
    isGuildAllowed (some "G1") (some [("G1", ["C1"])]) false = true :=
  (C1_isGuildAllowed_cases "G1" [("G1", ["C1"])] false).2.2.2.2.2.1 (by decide) (by decide)

/-- C2 (failing input): for the guildId "hasOwnProperty" — not a key of the
validly loaded map — the channel gate does not return the default policy:
the unguarded read `allowedMap[guildId]` yields the inherited
`Object.prototype.hasOwnProperty` function, so `channels.includes` throws a
`TypeError` instead. -/
theorem C2_isChannelAllowed_proto_read_throws :
    isChannelAllowed (some "hasOwnProperty") (some "C1") (some [("G1", ["C1"])]) true
      = JsOutcome.thrown "TypeError: channels.includes is not a function" := by decide

/-- C3: channel-level allowance never exceeds guild-level allowance — for
every guildId, channelId, map and default policy, when the guild gate
denies, the channel gate returns false (it does not even throw). -/
theorem C3_channel_never_exceeds_guild (g c : Option String)
    (m : Option AllowedContextMap) (d : Bool)
    (h : isGuildAllowed g m d = false) :
    isChannelAllowed g c m d = JsOutcome.ok false := by
  unfold isChannelAllowed
  by_cases hg : jsTruthy g
  · cases m with
    | none => simp [isGuildAllowed, hg] at h
    | some mm =>
      by_cases hc : jsTruthy c
      · simp [hg, hc, h]
      · simp [hg, hc]
  · simp [hg]

/-- Witness for C3 at an unlisted guild under a deny-by-default policy. -/
theorem C3_channel_never_exceeds_guild_witness :
    isChannelAllowed (some "G2") (some "C1") (some [("G1", ["C1"])]) false
      = JsOutcome.ok false :=
  C3_channel_never_exceeds_guild (some "G2") (some "C1") (some [("G1", ["C1"])]) false
    (by decide)

/-- C4 (counterexample): the claim admits every guildId "including empty
strings", but with the map absent the gate still returns false for the
empty guildId — the falsiness check precedes the absent-map check. -/
theorem C4_counterexample : ¬ isGuildAllowed (some "") none true = true := by decide

/-- C4 (amended): with the map absent, both gates return true for every
NON-EMPTY, present guild and channel identifier (absent or empty
identifiers are rejected with false before the map is consulted). -/
theorem C4_absent_map_allows (g c : String) (d : Bool) (hg : g ≠ "") (hc : c ≠ "") :
    isGuildAllowed (some g) none d = true ∧
    isChannelAllowed (some g) (some c) none d = JsOutcome.ok true := by
  constructor
  · simp [isGuildAllowed, jsTruthy, hg]
  · simp [isChannelAllowed, jsTruthy, hg, hc]

/-- Witness for the amended C4 at concrete identifiers. -/
theorem C4_absent_map_allows_witness :
    isGuildAllowed (some "G") none false = true ∧
    isChannelAllowed (some "G") (some "C") none false = JsOutcome.ok true :=
  C4_absent_map_allows "G" "C" false (by decide) (by decide)

/-- C5: the loader is total and fail-open — when no candidate path exists
the result is the absent map, and when the first existing candidate's
content fails to read, fails to parse as JSON, or does not validate as an
object of string arrays, the result is likewise the absent map (the error
is caught; nothing propagates). -/
theorem C5_loader_fail_open (fs : Fs) (cands : List String) :
    ((∀ p ∈ cands, fs.existsSync p = false) →
      loadAllowedContext fs cands = ⟨none, none⟩) ∧
    (∀ p, cands.find? fs.existsSync = some p →
      (fs.readParse p = none ∨
        ∃ j, fs.readParse p = some j ∧ validateAllowedContext j = none) →
      loadAllowedContext fs cands = ⟨none, none⟩) := by
  induction cands with
  | nil =>
    exact ⟨fun _ => rfl, fun p hp => by simp [List.find?] at hp⟩
  | cons q rest ih =>
    constructor
    · intro hall
      have hq : fs.existsSync q = false := hall q (List.mem_cons_self q rest)
      have hrest : loadAllowedContext fs rest = ⟨none, none⟩ :=
        ih.1 (fun p hp => hall p (List.mem_cons_of_mem q hp))
      simp [loadAllowedContext, hq, hrest]
    · intro p hfind hbad
      by_cases hq : fs.existsSync q = true
      · have hpq : q = p := by
          rw [List.find?_cons_of_pos _ hq] at hfind
          exact Option.some.inj hfind
        subst hpq
        rcases hbad with hnone | ⟨j, hj, hv⟩
        · simp [loadAllowedContext, hq, hnone]
        · simp [loadAllowedContext, hq, hj, hv]
      · have hq' : fs.existsSync q = false := by
          simpa using hq
        rw [List.find?_cons_of_neg _ (by simp [hq'])] at hfind
        have hrest := ih.2 p hfind hbad
        simp [loadAllowedContext, hq', hrest]

/-- Witness for C5: a present file whose JSON is a bare string (not an
object) yields the absent map. -/
theorem C5_loader_fail_open_witness :
    loadAllowedContext ⟨fun _ => true, fun _ => some (Json.str "not an object")⟩
      ["allowed-context.json", "../allowed-context.json"] = ⟨none, none⟩ :=
  (C5_loader_fail_open ⟨fun _ => true, fun _ => some (Json.str "not an object")⟩
      ["allowed-context.json", "../allowed-context.json"]).2
    "allowed-context.json" rfl (Or.inr ⟨Json.str "not an object", rfl, rfl⟩)

/-- C6 (failing input): for the guildId "constructor", which collides with
an `Object.prototype` member, the channel gate throws a `TypeError` instead
of returning a boolean. -/
theorem C6_gate_throws_on_constructor :
    isChannelAllowed (some "constructor") (some "C1") (some [("G1", ["C1"])]) true
      = JsOutcome.thrown "TypeError: channels.includes is not a function" := by decide

/-- C7 (counterexample): the identifier `LIB:UPLOAD:filename=a.pdf;x` lies
outside the spec grammar — its tail is not `;r=<int>;b=<int>` — yet
`parseCustomId` accepts it, because everything after the first `;` is
stripped without validation; so the parser does not accept exactly the
grammar. -/
theorem C7_counterexample :
    parseCustomId "LIB:UPLOAD:filename=a.pdf;x".data
        = some (CustomIdParsed.uploadFilename "a.pdf".data) ∧
    specGrammarAccepts "LIB:UPLOAD:filename=a.pdf;x".data = false := by
  constructor
  · decide
  · decide

/-- C7 (amended): `parseCustomId` accepts exactly the identifiers of shape
`LIB:<ACTION>:<key>=<value><tail>` with `ACTION` in UPLOAD/ASK, `key` in
filename/bookId, a non-empty separator-free value, and a tail that is
either empty or an arbitrary colon-free run starting with `;` — stripped,
never interpreted, and not validated against `;r=<int>;b=<int>`; the
spec's three examples parse exactly as stated. -/
theorem C7_parse_language (s : List Char) :
    ((∃ out, parseCustomId s = some out) ↔ parseAccepted s) ∧
    parseCustomId "LIB:UPLOAD:filename=a.pdf;r=2;b=1".data
      = some (CustomIdParsed.uploadFilename "a.pdf".data) ∧
    parseCustomId "LIB:ASK:bookId=42".data = some (CustomIdParsed.askId "42".data) ∧
    parseCustomId "GARBAGE".data = none := by
  refine ⟨⟨?_, ?_⟩, by decide, by decide, by decide⟩
  · rintro ⟨out, hout⟩
    exact parseAccepted_of_parse_some s out hout
  · rintro ⟨action, key, value, suffix, hv, hvc, hs, hsc, rfl⟩
    exact ⟨parsedOf action key value,
      parseCustomId_shape action key value suffix hv hvc hs hsc⟩

/-- C10: encode/parse round trip — for either action, a non-empty value
free of the separators and of whitespace (and of length at most 64 when
the key is `filename`), with row and button indices both given or both
omitted, parsing the encoded id succeeds and returns the same action with
the same value, in the `id` field for `bookId` and the `filename` field
for `filename`. -/
theorem C10_encode_parse_roundtrip (action : UiAction) (key : ValueKey)
    (value : List Char) (rowIndex buttonIndex : Option Int)
    (hv : value ≠ [])
    (hvc : ∀ c ∈ value, c ≠ ':' ∧ c ≠ ';' ∧ c ≠ '=' ∧ isJsWhitespace c = false)
    (hlen : key = ValueKey.filename → value.length ≤ 64)
    (hrb : (rowIndex = none ∧ buttonIndex = none) ∨
           ∃ r b, rowIndex = some r ∧ buttonIndex = some b) :
    parseCustomId (encodeCustomId action value rowIndex buttonIndex key)
      = some (parsedOf action key value) := by
  have hvc3 : ∀ c ∈ value, c ≠ ':' ∧ c ≠ ';' ∧ c ≠ '=' :=
    fun c hc => ⟨(hvc c hc).1, (hvc c hc).2.1, (hvc c hc).2.2.1⟩
  have hfilter : value.filter (fun c => !(isJsWhitespace c)) = value :=
    List.filter_eq_self.mpr (fun c hc => by simp [(hvc c hc).2.2.2])
  have e1 : ("LIB:UPLOAD".data : List Char) = "LIB".data ++ ':' :: "UPLOAD".data := by
    decide
  have e2 : ("LIB:ASK".data : List Char) = "LIB".data ++ ':' :: "ASK".data := by
    decide
  rcases hrb with ⟨hr, hb⟩ | ⟨r, b, hr, hb⟩
  · subst hr
    subst hb
    have henc : encodeCustomId action value none none key
        = "LIB".data ++ ':' :: action.chars ++ ':' :: key.chars ++ '=' :: value := by
      cases key with
      | bookId =>
        cases action <;>
          simp [encodeCustomId, CUSTOM_ID_UPLOAD, CUSTOM_ID_ASK, UiAction.chars,
            ValueKey.chars, e1, e2]
      | filename =>
        have h64 : ¬ value.length > 64 := Nat.not_lt.mpr (hlen rfl)
        cases action <;>
          simp [encodeCustomId, CUSTOM_ID_UPLOAD, CUSTOM_ID_ASK, UiAction.chars,
            ValueKey.chars, e1, e2, hfilter, h64]
    rw [henc]
    have hshape := parseCustomId_shape action key value [] hv hvc3 (Or.inl rfl) (by simp)
    simpa using hshape
  · subst hr
    subst hb
    have hsufc : ∀ c ∈ (';' :: 'r' :: '=' :: jsNumChars r
        ++ ';' :: 'b' :: '=' :: jsNumChars b : List Char), c ≠ ':' := by
      intro c hc
      simp only [List.cons_append, List.mem_cons, List.mem_append] at hc
      rcases hc with rfl | rfl | rfl | hc | rfl | rfl | rfl | hc
      · decide
      · decide
      · decide
      · exact (jsNumChars_not_sep r c hc).1
      · decide
      · decide
      · decide
      · exact (jsNumChars_not_sep b c hc).1
    have henc : encodeCustomId action value (some r) (some b) key
        = "LIB".data ++ ':' :: action.chars ++ ':' :: key.chars ++ '=' :: value
          ++ (';' :: 'r' :: '=' :: jsNumChars r ++ ';' :: 'b' :: '=' :: jsNumChars b) := by
      cases key with
      | bookId =>
        cases action <;>
          simp [encodeCustomId, CUSTOM_ID_UPLOAD, CUSTOM_ID_ASK, UiAction.chars,
            ValueKey.chars, e1, e2]
      | filename =>
        have h64 : ¬ value.length > 64 := Nat.not_lt.mpr (hlen rfl)
        cases action <;>
          simp [encodeCustomId, CUSTOM_ID_UPLOAD, CUSTOM_ID_ASK, UiAction.chars,
            ValueKey.chars, e1, e2, hfilter, h64]
    rw [henc]
    exact parseCustomId_shape action key value
      (';' :: 'r' :: '=' :: jsNumChars r ++ ';' :: 'b' :: '=' :: jsNumChars b)
      hv hvc3 (Or.inr ⟨'r' :: '=' :: jsNumChars r ++ ';' :: 'b' :: '=' :: jsNumChars b, rfl⟩)
      hsufc

/-- Witness for C10 at an encoded upload button with row 2 and button 1. -/
theorem C10_encode_parse_roundtrip_witness :
    parseCustomId
        (encodeCustomId UiAction.UPLOAD "a.pdf".data (some 2) (some 1) ValueKey.filename)
      = some (parsedOf UiAction.UPLOAD ValueKey.filename "a.pdf".data) :=
  C10_encode_parse_roundtrip UiAction.UPLOAD ValueKey.filename "a.pdf".data (some 2) (some 1)
    (by decide) (by decide) (by decide) (Or.inr ⟨2, 1, rfl, rfl⟩)

/-- C8: the four denial strings are produced verbatim; with a non-empty
configured contact id, the server denial embeds the mention `<@id>`. -/
theorem C8_denial_copy (cid : String) (h : cid ≠ "") :
    DM_BLOCKED = "This bot is not available in DMs." ∧
    SERVER_BLOCKED none = "This bot is not available in this server." ∧
    SERVER_BLOCKED (contactUserMention (some cid)) =
      "This bot is not available in this server. Please contact <@" ++ cid ++ ">." ∧
    CHANNEL_BLOCKED = "This bot is not available in this channel." := by
  refine ⟨rfl, rfl, ?_, rfl⟩
  have h1 : contactUserMention (some cid) = some ("<@" ++ cid ++ ">") := by
    simp [contactUserMention, jsTruthy, h]
  have h2 : ("<@" ++ cid ++ ">") ≠ "" := by
    intro hemp
    have hd := congrArg String.data hemp
    rw [String.data_append, String.data_append] at hd
    simp at hd
  rw [h1]
  simp only [SERVER_BLOCKED, jsTruthy, Option.getD_some]
  rw [if_pos (by simpa using h2)]
  apply String.ext
  simp [String.data_append]

/-- Witness for C8 at the concrete contact id 123. -/
theorem C8_denial_copy_witness :
    SERVER_BLOCKED (contactUserMention (some "123")) =
      "This bot is not available in this server. Please contact <@" ++ "123" ++ ">." :=
  (C8_denial_copy "123" (by decide)).2.2.1

/-- C9: when the first candidate path exists but its content is malformed
or shape-invalid, the loader returns the absent map at once — the
conclusion holds for every state of the remaining candidates, so the
second candidate is never consulted. -/
theorem C9_first_candidate_short_circuits (fs : Fs) (p : String) (rest : List String)
    (hex : fs.existsSync p = true)
    (hbad : fs.readParse p = none ∨
      ∃ j, fs.readParse p = some j ∧ validateAllowedContext j = none) :
    loadAllowedContext fs (p :: rest) = ⟨none, none⟩ := by
  rcases hbad with hnone | ⟨j, hj, hv⟩
  · simp [loadAllowedContext, hex, hnone]
  · simp [loadAllowedContext, hex, hj, hv]

/-- Witness for C9: the first path holds a malformed document while the
second holds a valid one; the loader still reports the absent map. -/
theorem C9_first_candidate_short_circuits_witness :
    loadAllowedContext
      ⟨fun _ => true,
       fun q => if q = "allowed-context.json" then some (Json.str "oops")
                else some (Json.obj [])⟩
      ["allowed-context.json", "../allowed-context.json"] = ⟨none, none⟩ :=
  C9_first_candidate_short_circuits _ "allowed-context.json" _ rfl
    (Or.inr ⟨Json.str "oops", by simp, rfl⟩)

end Librarian
